import Mathlib

/-!
Verification of the Caffe-Conv3D filler subsystem (`include/caffe/filler.hpp`)
and of the batched cyclic HDF5 reader contract exercised by
`src/caffe/test/test_hdf5data_layer.cpp`.

Buffers (`Blob`) are modelled as a shape together with a total data function;
machine floating point is modelled over `ℚ` (and over `ℝ` where the source
computes square roots).  The process-wide pseudo-random generator is modelled
as an explicit stream of draws: `caffe_rng_uniform` applies the inverse CDF to
draws in `[0, 1)`, `caffe_rng_gaussian` affinely rescales standard-normal
draws, and `caffe_rng_bernoulli` thresholds uniform draws.  A fatal `CHECK`
failure in the source is modelled as an error value returned together with the
buffer contents at the moment of the failure, so that statements about
mutation ordering (what was already written when the check fired) are
expressible.
-/

namespace CaffeFiller

/-- The variance-normalization enum of `FillerParameter` (proto). -/
inductive VarianceNorm
  | FAN_IN
  | AVERAGE
  | FAN_OUT
deriving DecidableEq

/-- The configuration record `FillerParameter` (proto): strategy name and the
numeric fields consumed by the fillers in `filler.hpp`. -/
structure FillerParameter where
  type : String
  value : ℚ
  min : ℚ
  max : ℚ
  mean : ℚ
  std : ℚ
  scale : ℚ
  sparse : ℤ
  variance_norm : VarianceNorm
deriving DecidableEq

/-- An N-dimensional buffer: a shape and a raw view over storage, as a total
function from linear index to element. -/
structure Blob (α : Type) where
  shape : List ℕ
  data : ℕ → α

/-- `blob->count()`: total element count, the product of the shape entries. -/
def Blob.count {α : Type} (b : Blob α) : ℕ :=
  b.shape.foldr (fun a r => a * r) 1

/-- `blob->shape(i)` axis lookup. -/
def Blob.shapeAt {α : Type} (b : Blob α) (i : ℕ) : ℕ :=
  b.shape.getD i 0

/-- Legacy accessor `blob->num()` = `shape(0)`. -/
def Blob.num {α : Type} (b : Blob α) : ℕ := b.shapeAt 0

/-- Legacy accessor `blob->height()` = `shape(2)`. -/
def Blob.height {α : Type} (b : Blob α) : ℕ := b.shapeAt 2

/-- Legacy accessor `blob->width()` = `shape(3)`. -/
def Blob.width {α : Type} (b : Blob α) : ℕ := b.shapeAt 3

/-- Failure modes of the registry (`GetFiller`). -/
inductive RegistryError
  | UnknownStrategy
deriving DecidableEq

/-- Failure modes of the fill routines: each constructor names the `CHECK`
that fired (`EmptyBuffer` for `CHECK(count)`, `UnsupportedSparsity` for
`CHECK_EQ(sparse, -1)`, `InvalidSparsity` for `CHECK_GE(sparse, -1)`,
`ZeroDim` for `CHECK(dim)`, `NotSquare` for the bilinear squareness checks,
`UnsupportedRank` for `NOT_IMPLEMENTED` / `CHECK_GE(num_axes, 1)`). -/
inductive FillError
  | EmptyBuffer
  | UnsupportedSparsity
  | InvalidSparsity
  | ZeroDim
  | NotSquare
  | UnsupportedRank
deriving DecidableEq

/-- The eight concrete strategies reachable from `GetFiller`. -/
inductive FillerKind
  | constant
  | gaussian
  | positive_unitball
  | uniform
  | xavier
  | msra
  | bilinear
  | gabor
deriving DecidableEq

/-- `GetFiller<Dtype>(param)`: the registry lookup keyed on the strategy
name, translated from the if-chain in `filler.hpp`. -/
def GetFiller (param : FillerParameter) : Except RegistryError FillerKind :=
  if param.type = "constant" then .ok .constant
  else if param.type = "gaussian" then .ok .gaussian
  else if param.type = "positive_unitball" then .ok .positive_unitball
  else if param.type = "uniform" then .ok .uniform
  else if param.type = "xavier" then .ok .xavier
  else if param.type = "msra" then .ok .msra
  else if param.type = "bilinear" then .ok .bilinear
  else if param.type = "gabor" then .ok .gabor
  else .error .UnknownStrategy

/-- Overwrite the first `n` cells of `d` with `f`; cells at or past `n` keep
their previous contents (a fill routine writes exactly `count` elements). -/
def writeN {α : Type} (n : ℕ) (f : ℕ → α) (d : ℕ → α) : ℕ → α :=
  fun i => if i < n then f i else d i

/-- `caffe_rng_uniform(n, a, b, data)`: element `i` is the uniform draw
`u i ∈ [0, 1)` rescaled onto `[a, b)`. -/
def caffe_rng_uniform {α : Type} [Ring α] (a b : α) (u : ℕ → α) : ℕ → α :=
  fun i => a + u i * (b - a)

/-- `caffe_rng_gaussian(n, mean, std, data)`: element `i` is the
standard-normal draw `g i` rescaled to mean `mean` and deviation `std`. -/
def caffe_rng_gaussian {α : Type} [Ring α] (mean std : α) (g : ℕ → α) : ℕ → α :=
  fun i => mean + std * g i

/-- `caffe_rng_bernoulli(n, p, mask)`: integer mask entry `i` is 1 exactly
when the uniform draw `v i ∈ [0, 1)` falls below `p`. -/
def caffe_rng_bernoulli (p : ℚ) (v : ℕ → ℚ) : ℕ → ℤ :=
  fun i => if v i < p then 1 else 0

/-- `ConstantFiller::Fill`: write `value` everywhere, then check sparsity. -/
def ConstantFiller.Fill (p : FillerParameter) (b : Blob ℚ) :
    Blob ℚ × Option FillError :=
  let count := b.count
  let value := p.value
  if count = 0 then (b, some FillError.EmptyBuffer)
  else
    let b' : Blob ℚ := ⟨b.shape, writeN count (fun _ => value) b.data⟩
    if p.sparse = -1 then (b', none) else (b', some FillError.UnsupportedSparsity)

/-- `UniformFiller::Fill`: draw `U(min, max)` everywhere, then check
sparsity.  `u` is the stream of uniform `[0, 1)` draws consumed by
`caffe_rng_uniform`. -/
def UniformFiller.Fill (p : FillerParameter) (b : Blob ℚ) (u : ℕ → ℚ) :
    Blob ℚ × Option FillError :=
  if b.count = 0 then (b, some FillError.EmptyBuffer)
  else
    let b' : Blob ℚ := ⟨b.shape, writeN b.count (caffe_rng_uniform p.min p.max u) b.data⟩
    if p.sparse = -1 then (b', none) else (b', some FillError.UnsupportedSparsity)

/-- `GaussianFiller::Fill`: draw `N(mean, std)` everywhere; then
`CHECK_GE(sparse, -1)`; when `sparse ≥ 0`, draw a Bernoulli mask with
probability `sparse / shape(0)` and multiply it in elementwise.  `g` is the
standard-normal draw stream, `v` the uniform stream consumed by the Bernoulli
mask generator. -/
def GaussianFiller.Fill (p : FillerParameter) (b : Blob ℚ) (g v : ℕ → ℚ) :
    Blob ℚ × Option FillError :=
  if b.count = 0 then (b, some FillError.EmptyBuffer)
  else
    let d1 := writeN b.count (caffe_rng_gaussian p.mean p.std g) b.data
    if p.sparse < -1 then (⟨b.shape, d1⟩, some FillError.InvalidSparsity)
    else if 0 ≤ p.sparse then
      if b.shape.length < 1 then (⟨b.shape, d1⟩, some FillError.UnsupportedRank)
      else
        let num_outputs := b.shapeAt 0
        let non_zero_probability : ℚ := (p.sparse : ℚ) / (num_outputs : ℚ)
        let mask := caffe_rng_bernoulli non_zero_probability v
        (⟨b.shape, writeN b.count (fun i => d1 i * (mask i : ℚ)) d1⟩, none)
    else (⟨b.shape, d1⟩, none)

/-- The sum of group `g` of `dim` consecutive elements of `d`: the inner
accumulation loop of `PositiveUnitballFiller::Fill`. -/
def groupSum (d : ℕ → ℚ) (dim g : ℕ) : ℚ :=
  ∑ j ∈ Finset.range dim, d (g * dim + j)

/-- `PositiveUnitballFiller::Fill`: draw `U(0, 1)` everywhere, then divide
each of the `num = shape(0)` groups of `dim = count / shape(0)` consecutive
elements by that group's sum.  The per-group loop is expressed pointwise:
element `i < num * dim` is divided by the sum of its group `i / dim`. -/
def PositiveUnitballFiller.Fill (p : FillerParameter) (b : Blob ℚ) (u : ℕ → ℚ) :
    Blob ℚ × Option FillError :=
  let count := b.count
  if count = 0 then (b, some FillError.EmptyBuffer)
  else
    let d1 := writeN count (caffe_rng_uniform 0 1 u) b.data
    let dim := count / b.shapeAt 0
    if dim = 0 then (⟨b.shape, d1⟩, some FillError.ZeroDim)
    else
      let num := b.num
      let d2 := fun i => if i < num * dim then d1 i / groupSum d1 dim (i / dim) else d1 i
      let b' : Blob ℚ := ⟨b.shape, d2⟩
      if p.sparse = -1 then (b', none) else (b', some FillError.UnsupportedSparsity)

/-- `XavierFiller::Fill`: compute `fan_in = count / shape(0)`,
`fan_out = count / shape(1)` (integer divisions), pick `n` according to the
variance-normalization mode by the source's if-chain, and draw
`U(-scale, scale)` with `scale = sqrt(3 / n)` everywhere; then check
sparsity. -/
noncomputable def XavierFiller.Fill (p : FillerParameter) (b : Blob ℝ) (u : ℕ → ℝ) :
    Blob ℝ × Option FillError :=
  if b.count = 0 then (b, some FillError.EmptyBuffer)
  else
    let fan_in : ℕ := b.count / b.shapeAt 0
    let fan_out : ℕ := b.count / b.shapeAt 1
    let n : ℝ :=
      if p.variance_norm = VarianceNorm.AVERAGE then ((fan_in : ℝ) + (fan_out : ℝ)) / 2
      else if p.variance_norm = VarianceNorm.FAN_OUT then (fan_out : ℝ)
      else (fan_in : ℝ)
    let scale : ℝ := Real.sqrt (3 / n)
    let b' : Blob ℝ := ⟨b.shape, writeN b.count (caffe_rng_uniform (-scale) scale u) b.data⟩
    if p.sparse = -1 then (b', none) else (b', some FillError.UnsupportedSparsity)

/-- `MSRAFiller::Fill`: same `fan_in` / `fan_out` / `n` computation as
xavier, then draw `N(0, std)` with `std = scale_param * sqrt(2 / n)`
everywhere; then check sparsity.  `g` is the standard-normal draw stream. -/
noncomputable def MSRAFiller.Fill (p : FillerParameter) (b : Blob ℝ) (g : ℕ → ℝ) :
    Blob ℝ × Option FillError :=
  if b.count = 0 then (b, some FillError.EmptyBuffer)
  else
    let fan_in : ℕ := b.count / b.shapeAt 0
    let fan_out : ℕ := b.count / b.shapeAt 1
    let n : ℝ :=
      if p.variance_norm = VarianceNorm.AVERAGE then ((fan_in : ℝ) + (fan_out : ℝ)) / 2
      else if p.variance_norm = VarianceNorm.FAN_OUT then (fan_out : ℝ)
      else (fan_in : ℝ)
    let std : ℝ := (p.scale : ℝ) * Real.sqrt (2 / n)
    let b' : Blob ℝ := ⟨b.shape, writeN b.count (caffe_rng_gaussian 0 std g) b.data⟩
    if p.sparse = -1 then (b', none) else (b', some FillError.UnsupportedSparsity)

/-- The constant `c = (2f - 1 - f mod 2) / (2f)` of `BilinearFiller::Fill`. -/
def bilinearC (f : ℕ) : ℚ :=
  (2 * (f : ℚ) - 1 - ((f % 2 : ℕ) : ℚ)) / (2 * (f : ℚ))

/-- One factor `1 - |t / f - c|` of the bilinear interpolation product. -/
def bilinearFactor (f t : ℕ) : ℚ :=
  1 - |(t : ℚ) / (f : ℚ) - bilinearC f|

/-- `BilinearFiller::Fill`: for exactly 4 axes (square trailing extents) or
exactly 5 axes (cubic trailing extents), write at each linear index the
product over the spatial coordinates, decoded row-major from the trailing
axes, of `1 - |coord / f - c|`, where `f = ceil(extent / 2)` (in `ℕ`:
`(extent + 1) / 2`); any other axis count hits `NOT_IMPLEMENTED`.  The
sparsity check runs after the write loop. -/
def BilinearFiller.Fill (p : FillerParameter) (b : Blob ℚ) :
    Blob ℚ × Option FillError :=
  if b.shape.length = 4 then
    if b.width ≠ b.height then (b, some FillError.NotSquare)
    else
      let f : ℕ := (b.width + 1) / 2
      let d' := writeN b.count (fun i =>
        bilinearFactor f (i % b.width) * bilinearFactor f ((i / b.width) % b.height)) b.data
      let b' : Blob ℚ := ⟨b.shape, d'⟩
      if p.sparse = -1 then (b', none) else (b', some FillError.UnsupportedSparsity)
  else if b.shape.length = 5 then
    if b.shapeAt 2 ≠ b.shapeAt 3 then (b, some FillError.NotSquare)
    else if b.shapeAt 3 ≠ b.shapeAt 4 then (b, some FillError.NotSquare)
    else
      let f : ℕ := (b.shapeAt 2 + 1) / 2
      let d' := writeN b.count (fun i =>
        bilinearFactor f (i % b.shapeAt 4) *
        bilinearFactor f ((i / b.shapeAt 4) % b.shapeAt 3) *
        bilinearFactor f ((i / (b.shapeAt 3 * b.shapeAt 4)) % b.shapeAt 2)) b.data
      let b' : Blob ℚ := ⟨b.shape, d'⟩
      if p.sparse = -1 then (b', none) else (b', some FillError.UnsupportedSparsity)
  else (b, some FillError.UnsupportedRank)

end CaffeFiller

namespace HDF5Reader

/-- Modelled from the spec: the batched cyclic reader's cursor state — the
HDF5 data layer implementation is not among the given sources, only its test;
§4.3 of the design gives the state machine `{file_index, row_cursor}`. -/
structure ReaderState where
  file_index : ℕ
  row_cursor : ℕ
deriving DecidableEq

/-- Modelled from the spec: one batch request.  `rows` lists the per-file row
counts.  If `row_cursor + B` exceeds the active file's row count, the cursor
resets to 0 and the file index advances (wrapping over the file list); then
rows `[row_cursor, row_cursor + B)` of the active file are copied and the
cursor advances by `B`.  Returns the `(file, first row)` of the batch served
together with the successor state. -/
def readBatch (rows : List ℕ) (B : ℕ) (s : ReaderState) :
    (ℕ × ℕ) × ReaderState :=
  if rows.getD s.file_index 0 < s.row_cursor + B then
    let fi := (s.file_index + 1) % rows.length
    ((fi, 0), ⟨fi, B⟩)
  else
    ((s.file_index, s.row_cursor), ⟨s.file_index, s.row_cursor + B⟩)

/-- Modelled from the spec: the reader state after `n` batch requests,
starting from `file_index = 0, row_cursor = 0` as set at setup. -/
def readerRun (rows : List ℕ) (B : ℕ) : ℕ → ReaderState
  | 0 => ⟨0, 0⟩
  | n + 1 => (readBatch rows B (readerRun rows B n)).2

/-- The `(file, first row)` pair served by batch number `n` (0-based). -/
def batchAt (rows : List ℕ) (B n : ℕ) : ℕ × ℕ :=
  (readBatch rows B (readerRun rows B n)).1

/-- Modelled from the spec: the copy step of a batch request — entry `j` of
the output buffer for column `col` receives row `first + j` of that column of
the served file, where `tbl file col row` is the stored row content. -/
def batchColumn (tbl : ℕ → ℕ → ℕ → ℚ) (served : ℕ × ℕ) (col j : ℕ) : ℚ :=
  tbl served.1 col (served.2 + j)

end HDF5Reader

namespace CaffeFiller

/-- The seven strategy names listed by the specification's registry
contract. -/
def specListedNames : List String :=
  ["constant", "gaussian", "positive_unitball", "uniform", "xavier", "msra", "bilinear"]

/-- The eight `(name, strategy)` pairs present in `GetFiller`'s if-chain. -/
def registeredFillers : List (String × FillerKind) :=
  [("constant", FillerKind.constant), ("gaussian", FillerKind.gaussian),
   ("positive_unitball", FillerKind.positive_unitball), ("uniform", FillerKind.uniform),
   ("xavier", FillerKind.xavier), ("msra", FillerKind.msra),
   ("bilinear", FillerKind.bilinear), ("gabor", FillerKind.gabor)]

/-- The names accepted by the registry. -/
def registeredNames : List String := registeredFillers.map Prod.fst

/-- The registry contract in the spec's words, with `gabor` added: look the
name up in the table, fail with `UnknownStrategy` exactly when it is absent. -/
def getFillerSpec (param : FillerParameter) : Except RegistryError FillerKind :=
  match registeredFillers.lookup param.type with
  | some k => Except.ok k
  | none => Except.error RegistryError.UnknownStrategy

/-- Replace the sparsity field of a parameter record, keeping the rest. -/
def FillerParameter.withSparse (p : FillerParameter) (s : ℤ) : FillerParameter :=
  ⟨p.type, p.value, p.min, p.max, p.mean, p.std, p.scale, s, p.variance_norm⟩

/-- Projecting the buffer out of a fill result ignores which branch the final
sparsity check took: both branches carry the same, already-written buffer. -/
theorem fst_ite_pair {α β : Type} (c : Prop) [Decidable c] (b : α) (x y : β) :
    (if c then (b, x) else (b, y)).1 = b := by
  split <;> rfl

/-- C1: the claim is false as stated: the name `gabor` is outside the
claim's seven-name list, yet `GetFiller` succeeds on it (returning the gabor
strategy) instead of failing with `UnknownStrategy`. -/
theorem c1_counterexample :
    GetFiller ⟨"gabor", 0, 0, 0, 0, 0, 0, -1, VarianceNorm.FAN_IN⟩ =
      Except.ok FillerKind.gabor ∧
    "gabor" ∉ specListedNames := by
  constructor
  · rfl
  · decide

/-- C1 (amended): the registry accepts exactly the eight names
constant, gaussian, positive_unitball, uniform, xavier, msra, bilinear,
gabor — it returns the strategy registered under the given name and fails
with `UnknownStrategy` exactly when the name is none of the eight. -/
theorem c1_amended_registry (param : FillerParameter) :
    GetFiller param = getFillerSpec param ∧
    (GetFiller param = Except.error RegistryError.UnknownStrategy ↔
      param.type ∉ registeredNames) := by
  by_cases h1 : param.type = "constant"
  · simp [GetFiller, getFillerSpec, registeredFillers, registeredNames, List.lookup, h1]
  · by_cases h2 : param.type = "gaussian"
    · simp [GetFiller, getFillerSpec, registeredFillers, registeredNames, List.lookup, h1, h2]
    · by_cases h3 : param.type = "positive_unitball"
      · simp [GetFiller, getFillerSpec, registeredFillers, registeredNames, List.lookup,
          h1, h2, h3]
      · by_cases h4 : param.type = "uniform"
        · simp [GetFiller, getFillerSpec, registeredFillers, registeredNames, List.lookup,
            h1, h2, h3, h4]
        · by_cases h5 : param.type = "xavier"
          · simp [GetFiller, getFillerSpec, registeredFillers, registeredNames, List.lookup,
              h1, h2, h3, h4, h5]
          · by_cases h6 : param.type = "msra"
            · simp [GetFiller, getFillerSpec, registeredFillers, registeredNames, List.lookup,
                h1, h2, h3, h4, h5, h6]
            · by_cases h7 : param.type = "bilinear"
              · simp [GetFiller, getFillerSpec, registeredFillers, registeredNames,
                  List.lookup, h1, h2, h3, h4, h5, h6, h7]
              · by_cases h8 : param.type = "gabor"
                · simp [GetFiller, getFillerSpec, registeredFillers, registeredNames,
                    List.lookup, h1, h2, h3, h4, h5, h6, h7, h8]
                · have b1 : (param.type == "constant") = false := beq_eq_false_iff_ne.mpr h1
                  have b2 : (param.type == "gaussian") = false := beq_eq_false_iff_ne.mpr h2
                  have b3 : (param.type == "positive_unitball") = false :=
                    beq_eq_false_iff_ne.mpr h3
                  have b4 : (param.type == "uniform") = false := beq_eq_false_iff_ne.mpr h4
                  have b5 : (param.type == "xavier") = false := beq_eq_false_iff_ne.mpr h5
                  have b6 : (param.type == "msra") = false := beq_eq_false_iff_ne.mpr h6
                  have b7 : (param.type == "bilinear") = false := beq_eq_false_iff_ne.mpr h7
                  have b8 : (param.type == "gabor") = false := beq_eq_false_iff_ne.mpr h8
                  simp [GetFiller, getFillerSpec, registeredFillers, registeredNames,
                    List.lookup, h1, h2, h3, h4, h5, h6, h7, h8, b1, b2, b3, b4, b5, b6, b7, b8]

/-- C2: the claim is false as stated: on a 2-element buffer of zeros,
`ConstantFiller::Fill` with `value = 7` and sparsity 0 does fail with
`UnsupportedSparsity`, but the buffer is not left unchanged — element 0 has
already been overwritten with 7. -/
theorem c2_counterexample :
    (ConstantFiller.Fill ⟨"constant", 7, 0, 0, 0, 0, 0, 0, VarianceNorm.FAN_IN⟩
        ⟨[1, 2], fun _ => 0⟩).2 = some FillError.UnsupportedSparsity ∧
    (ConstantFiller.Fill ⟨"constant", 7, 0, 0, 0, 0, 0, 0, VarianceNorm.FAN_IN⟩
        ⟨[1, 2], fun _ => 0⟩).1.data 0 = 7 ∧
    (7 : ℚ) ≠ 0 := by
  refine ⟨by decide, by decide, by norm_num⟩

/-- C2 (amended): on a nonempty 4-axis square buffer, every
sparsity-forbidding strategy (constant, uniform, positive_unitball, xavier,
msra, bilinear) invoked with sparsity ≠ -1 does fail with
`UnsupportedSparsity`, but only after the buffer has been fully written: the
final contents equal the strategy's normal fill output, because the sparsity
check runs after the write loop, not before it. -/
theorem c2_amended_mutation_precedes_check
    (p : FillerParameter) (n ch S : ℕ) (d u : ℕ → ℚ) (dr ur : ℕ → ℝ)
    (hsp : p.sparse ≠ -1) (hn : 0 < n) (hch : 0 < ch) (hS : 0 < S) :
    ConstantFiller.Fill p ⟨[n, ch, S, S], d⟩ =
      ((ConstantFiller.Fill (p.withSparse (-1)) ⟨[n, ch, S, S], d⟩).1,
        some FillError.UnsupportedSparsity) ∧
    UniformFiller.Fill p ⟨[n, ch, S, S], d⟩ u =
      ((UniformFiller.Fill (p.withSparse (-1)) ⟨[n, ch, S, S], d⟩ u).1,
        some FillError.UnsupportedSparsity) ∧
    PositiveUnitballFiller.Fill p ⟨[n, ch, S, S], d⟩ u =
      ((PositiveUnitballFiller.Fill (p.withSparse (-1)) ⟨[n, ch, S, S], d⟩ u).1,
        some FillError.UnsupportedSparsity) ∧
    XavierFiller.Fill p ⟨[n, ch, S, S], dr⟩ ur =
      ((XavierFiller.Fill (p.withSparse (-1)) ⟨[n, ch, S, S], dr⟩ ur).1,
        some FillError.UnsupportedSparsity) ∧
    MSRAFiller.Fill p ⟨[n, ch, S, S], dr⟩ ur =
      ((MSRAFiller.Fill (p.withSparse (-1)) ⟨[n, ch, S, S], dr⟩ ur).1,
        some FillError.UnsupportedSparsity) ∧
    BilinearFiller.Fill p ⟨[n, ch, S, S], d⟩ =
      ((BilinearFiller.Fill (p.withSparse (-1)) ⟨[n, ch, S, S], d⟩).1,
        some FillError.UnsupportedSparsity) := by
  have hcq : Blob.count (⟨[n, ch, S, S], d⟩ : Blob ℚ) = n * (ch * (S * (S * 1))) := rfl
  have hcr : Blob.count (⟨[n, ch, S, S], dr⟩ : Blob ℝ) = n * (ch * (S * (S * 1))) := rfl
  have hrest : 0 < ch * (S * (S * 1)) :=
    Nat.mul_pos hch (Nat.mul_pos hS (Nat.mul_pos hS Nat.one_pos))
  have hprod : n * (ch * (S * (S * 1))) ≠ 0 := by
    have := Nat.mul_pos hn hrest
    omega
  have hcq' : Blob.count (⟨[n, ch, S, S], d⟩ : Blob ℚ) ≠ 0 := by rw [hcq]; exact hprod
  have hcr' : Blob.count (⟨[n, ch, S, S], dr⟩ : Blob ℝ) ≠ 0 := by rw [hcr]; exact hprod
  have hs0 : Blob.shapeAt (⟨[n, ch, S, S], d⟩ : Blob ℚ) 0 = n := rfl
  have hdim : Blob.count (⟨[n, ch, S, S], d⟩ : Blob ℚ) /
      Blob.shapeAt (⟨[n, ch, S, S], d⟩ : Blob ℚ) 0 ≠ 0 := by
    rw [hcq, hs0, Nat.mul_div_cancel_left _ hn]
    omega
  refine ⟨?_, ?_, ?_, ?_, ?_, ?_⟩
  · simp [ConstantFiller.Fill, FillerParameter.withSparse, hcq', hsp]
  · simp [UniformFiller.Fill, FillerParameter.withSparse, hcq', hsp]
  · simp [PositiveUnitballFiller.Fill, FillerParameter.withSparse, hcq', hdim, hsp]
  · simp [XavierFiller.Fill, FillerParameter.withSparse, hcr', hsp]
  · simp [MSRAFiller.Fill, FillerParameter.withSparse, hcr', hsp]
  · simp [BilinearFiller.Fill, FillerParameter.withSparse, Blob.width, Blob.height,
      Blob.shapeAt, hsp]

/-- Fixed arguments used by witness instantiations: a parameter record with
sparsity 2, and constantly-zero draw streams. -/
def pSparse2 : FillerParameter := ⟨"uniform", 7, 0, 1, 0, 1, 1, 2, VarianceNorm.FAN_IN⟩

/-- Constantly-zero rational stream. -/
def zeroQ : ℕ → ℚ := fun _ => 0

/-- Constantly-zero real stream. -/
def zeroR : ℕ → ℝ := fun _ => 0

/-- Witness for the amended C2 theorem at a concrete buffer of shape
(1, 1, 2, 2) with sparsity 2. -/
theorem c2_amended_witness :
    ConstantFiller.Fill pSparse2 ⟨[1, 1, 2, 2], zeroQ⟩ =
      ((ConstantFiller.Fill (pSparse2.withSparse (-1)) ⟨[1, 1, 2, 2], zeroQ⟩).1,
        some FillError.UnsupportedSparsity) ∧
    UniformFiller.Fill pSparse2 ⟨[1, 1, 2, 2], zeroQ⟩ zeroQ =
      ((UniformFiller.Fill (pSparse2.withSparse (-1)) ⟨[1, 1, 2, 2], zeroQ⟩ zeroQ).1,
        some FillError.UnsupportedSparsity) ∧
    PositiveUnitballFiller.Fill pSparse2 ⟨[1, 1, 2, 2], zeroQ⟩ zeroQ =
      ((PositiveUnitballFiller.Fill (pSparse2.withSparse (-1)) ⟨[1, 1, 2, 2], zeroQ⟩ zeroQ).1,
        some FillError.UnsupportedSparsity) ∧
    XavierFiller.Fill pSparse2 ⟨[1, 1, 2, 2], zeroR⟩ zeroR =
      ((XavierFiller.Fill (pSparse2.withSparse (-1)) ⟨[1, 1, 2, 2], zeroR⟩ zeroR).1,
        some FillError.UnsupportedSparsity) ∧
    MSRAFiller.Fill pSparse2 ⟨[1, 1, 2, 2], zeroR⟩ zeroR =
      ((MSRAFiller.Fill (pSparse2.withSparse (-1)) ⟨[1, 1, 2, 2], zeroR⟩ zeroR).1,
        some FillError.UnsupportedSparsity) ∧
    BilinearFiller.Fill pSparse2 ⟨[1, 1, 2, 2], zeroQ⟩ =
      ((BilinearFiller.Fill (pSparse2.withSparse (-1)) ⟨[1, 1, 2, 2], zeroQ⟩).1,
        some FillError.UnsupportedSparsity) :=
  c2_amended_mutation_precedes_check pSparse2 1 1 2 zeroQ zeroQ zeroR zeroR
    (by decide) (by decide) (by decide) (by decide)

end CaffeFiller

namespace HDF5Reader

/-- Closed form of the reader state over two files of `2 * B` rows each:
after the first batch the state alternates cursor `B` (odd step counts) and
`2 * B` (even step counts), while the active file flips every second
request. -/
theorem readerRun_two_files (B : ℕ) (hB : 0 < B) (n : ℕ) :
    readerRun [2 * B, 2 * B] B (n + 1) =
      ⟨n / 2 % 2, if n % 2 = 0 then B else 2 * B⟩ := by
  induction n with
  | zero =>
    rw [readerRun, readerRun]
    simp only [readBatch, List.getD_cons_zero]
    rw [if_neg (by omega)]
    simp only [ReaderState.mk.injEq]
    simp only [if_true, true_and]
    omega
  | succ k ih =>
    rw [readerRun, ih]
    have hgd : ∀ z : ℕ, [2 * B, 2 * B].getD (z % 2) 0 = 2 * B := by
      intro z
      rcases Nat.mod_two_eq_zero_or_one z with h | h <;> rw [h] <;> rfl
    rcases Nat.mod_two_eq_zero_or_one k with hk2 | hk2
    · -- k even: state cursor is B; the request is served in place
      rw [if_pos hk2]
      simp only [readBatch, hgd]
      rw [if_neg (by omega)]
      simp only [ReaderState.mk.injEq]
      constructor
      · omega
      · rw [if_neg (by omega : ¬ (k + 1) % 2 = 0)]
        omega
    · -- k odd: state cursor is 2 * B; the request wraps to the other file
      rw [if_neg (by omega)]
      simp only [readBatch, hgd]
      rw [if_pos (by omega)]
      simp only [List.length_cons, List.length_nil, ReaderState.mk.injEq]
      constructor
      · omega
      · rw [if_pos (by omega : (k + 1) % 2 = 0)]

/-- C3: the claim is false as stated: with two files of R = 15 rows and
batch size B = 5 (B divides R), batch number 2 — an even-numbered
iteration — is served from file 0 at row offset 10, not at offset
(2 mod 2) · B = 0: the file does not switch after every 2 iterations when
R ≠ 2B. -/
theorem c3_counterexample :
    batchAt [15, 15] 5 2 = (0, 10) ∧ 2 % 2 * 5 = 0 ∧ (10 : ℕ) ≠ 0 := by
  refine ⟨by decide, by decide, by decide⟩

/-- C3 (amended, reader modelled from the spec): over two files of `2 * B`
rows each (two batches per file, as in the documented R = 10, B = 5
instance), batch number `n` is served from file 0 when `n mod 4 < 2` and
from file 1 otherwise, at row offset `(n mod 2) · B`; consequently each
requested column buffer receives exactly rows
`[(n mod 2)·B, (n mod 2)·B + B)` of that file's column. -/
theorem c3_amended_reader_cycle (B n col j : ℕ) (tbl : ℕ → ℕ → ℕ → ℚ)
    (hB : 0 < B) :
    batchAt [2 * B, 2 * B] B n = (if n % 4 < 2 then 0 else 1, n % 2 * B) ∧
    batchColumn tbl (batchAt [2 * B, 2 * B] B n) col j =
      tbl (if n % 4 < 2 then 0 else 1) col (n % 2 * B + j) := by
  have hgd : ∀ z : ℕ, [2 * B, 2 * B].getD (z % 2) 0 = 2 * B := by
    intro z
    rcases Nat.mod_two_eq_zero_or_one z with h | h <;> rw [h] <;> rfl
  have hmain : batchAt [2 * B, 2 * B] B n = (if n % 4 < 2 then 0 else 1, n % 2 * B) := by
    match n with
    | 0 =>
      rw [batchAt, readerRun]
      simp only [readBatch, List.getD_cons_zero]
      rw [if_neg (by omega)]
      simp only [Prod.mk.injEq]
      constructor
      · rw [if_pos (by omega)]
      · omega
    | k + 1 =>
      rw [batchAt, readerRun_two_files B hB k]
      rcases Nat.mod_two_eq_zero_or_one k with hk2 | hk2
      · -- k even: cursor B, served in place
        rw [if_pos hk2]
        simp only [readBatch, hgd]
        rw [if_neg (by omega)]
        simp only [Prod.mk.injEq]
        constructor
        · by_cases h4 : (k + 1) % 4 < 2
          · rw [if_pos h4]; omega
          · rw [if_neg h4]; omega
        · rw [show (k + 1) % 2 = 1 by omega, one_mul]
      · -- k odd: cursor 2B, wrap to the other file
        rw [if_neg (by omega)]
        simp only [readBatch, hgd]
        rw [if_pos (by omega)]
        simp only [List.length_cons, List.length_nil, Prod.mk.injEq]
        constructor
        · by_cases h4 : (k + 1) % 4 < 2
          · rw [if_pos h4]; omega
          · rw [if_neg h4]; omega
        · rw [show (k + 1) % 2 = 0 by omega, zero_mul]
  refine ⟨hmain, ?_⟩
  rw [hmain, batchColumn]

end HDF5Reader

namespace CaffeFiller

/-- The claim's variance-normalization selection: `fan_in = count / shape[0]`
and `fan_out = count / shape[1]` by integer division; `n` is `fan_in` by
default, `(fan_in + fan_out) / 2` under AVERAGE, `fan_out` under FAN_OUT. -/
def specVarianceN (p : FillerParameter) (shape : List ℕ) : ℚ :=
  let count := shape.foldr (fun a r => a * r) 1
  let fan_in : ℕ := count / shape.getD 0 0
  let fan_out : ℕ := count / shape.getD 1 0
  match p.variance_norm with
  | VarianceNorm.FAN_IN => (fan_in : ℚ)
  | VarianceNorm.AVERAGE => ((fan_in : ℚ) + (fan_out : ℚ)) / 2
  | VarianceNorm.FAN_OUT => (fan_out : ℚ)

/-- C4: on a buffer with at least 2 axes and positive element count, xavier
draws every element from `U(-sqrt(3/n), sqrt(3/n))` and msra draws every
element from `N(0, scale · sqrt(2/n))`, where `n` is selected from
`fan_in = count/shape[0]` and `fan_out = count/shape[1]` as `fan_in` by
default, the average under AVERAGE, and `fan_out` under FAN_OUT. -/
theorem c4_xavier_msra_scale
    (p : FillerParameter) (shape : List ℕ) (dr u g : ℕ → ℝ) (i : ℕ)
    (hax : 2 ≤ shape.length)
    (hi : i < Blob.count (⟨shape, dr⟩ : Blob ℝ)) :
    (XavierFiller.Fill p ⟨shape, dr⟩ u).1.data i =
      caffe_rng_uniform (-(Real.sqrt (3 / ((specVarianceN p shape : ℚ) : ℝ))))
        (Real.sqrt (3 / ((specVarianceN p shape : ℚ) : ℝ))) u i ∧
    (MSRAFiller.Fill p ⟨shape, dr⟩ g).1.data i =
      caffe_rng_gaussian 0
        ((p.scale : ℝ) * Real.sqrt (2 / ((specVarianceN p shape : ℚ) : ℝ))) g i := by
  have hi' : i < List.foldr (fun a r => a * r) 1 shape := by
    have := hi
    simp only [Blob.count] at this
    exact this
  have hc : ¬ List.foldr (fun a r => a * r) 1 shape = 0 := by omega
  cases hv : p.variance_norm <;>
    simp [XavierFiller.Fill, MSRAFiller.Fill, specVarianceN, hv, hc, writeN, hi',
      fst_ite_pair, caffe_rng_uniform, caffe_rng_gaussian, Blob.count, Blob.shapeAt]

/-- Witness for C4 at shape (2, 3), FAN_IN mode, index 0. -/
theorem c4_witness :
    (XavierFiller.Fill pSparse2 ⟨[2, 3], zeroR⟩ zeroR).1.data 0 =
      caffe_rng_uniform (-(Real.sqrt (3 / ((specVarianceN pSparse2 [2, 3] : ℚ) : ℝ))))
        (Real.sqrt (3 / ((specVarianceN pSparse2 [2, 3] : ℚ) : ℝ))) zeroR 0 ∧
    (MSRAFiller.Fill pSparse2 ⟨[2, 3], zeroR⟩ zeroR).1.data 0 =
      caffe_rng_gaussian 0
        ((pSparse2.scale : ℝ) *
          Real.sqrt (2 / ((specVarianceN pSparse2 [2, 3] : ℚ) : ℝ))) zeroR 0 :=
  c4_xavier_msra_scale pSparse2 [2, 3] zeroR zeroR zeroR 0 (by decide) (by decide)

/-- C6: gaussian fill draws every element from `N(mean, std)`; with
`sparsity ≥ 0` it then multiplies each element by an independent
Bernoulli(`sparsity / shape[0]`) 0-or-1 mask value drawn per element; with
`sparsity = -1` no mask is applied; `sparsity < -1` is rejected. -/
theorem c6_gaussian_sparsity
    (p : FillerParameter) (shape : List ℕ) (d g v : ℕ → ℚ) (i : ℕ)
    (hax : 0 < shape.length)
    (hi : i < Blob.count (⟨shape, d⟩ : Blob ℚ)) :
    (GaussianFiller.Fill p ⟨shape, d⟩ g v).1.data i =
      (if 0 ≤ p.sparse then
        caffe_rng_gaussian p.mean p.std g i *
          ((caffe_rng_bernoulli ((p.sparse : ℚ) / ((shape.getD 0 0 : ℕ) : ℚ)) v i : ℤ) : ℚ)
      else caffe_rng_gaussian p.mean p.std g i) ∧
    (GaussianFiller.Fill p ⟨shape, d⟩ g v).2 =
      (if p.sparse < -1 then some FillError.InvalidSparsity else none) ∧
    (caffe_rng_bernoulli ((p.sparse : ℚ) / ((shape.getD 0 0 : ℕ) : ℚ)) v i = 0 ∨
      caffe_rng_bernoulli ((p.sparse : ℚ) / ((shape.getD 0 0 : ℕ) : ℚ)) v i = 1) := by
  have hi' : i < List.foldr (fun a r => a * r) 1 shape := by
    have := hi
    simp only [Blob.count] at this
    exact this
  have hc : ¬ List.foldr (fun a r => a * r) 1 shape = 0 := by omega
  have hlen : ¬ shape.length < 1 := by omega
  have hmask : ∀ q : ℚ, caffe_rng_bernoulli q v i = 0 ∨ caffe_rng_bernoulli q v i = 1 := by
    intro q
    rw [caffe_rng_bernoulli]
    split
    · right; rfl
    · left; rfl
  refine ⟨?_, ?_, hmask _⟩ <;>
  · rcases lt_trichotomy p.sparse (-1) with hs | hs | hs
    · have h0 : ¬ (0 : ℤ) ≤ p.sparse := by omega
      simp [GaussianFiller.Fill, Blob.count, Blob.shapeAt, hc, hs, h0, writeN, hi',
        caffe_rng_gaussian]
    · have h1 : ¬ p.sparse < -1 := by omega
      have h0 : ¬ (0 : ℤ) ≤ p.sparse := by omega
      simp [GaussianFiller.Fill, Blob.count, Blob.shapeAt, hc, hs, h0, h1, writeN, hi',
        caffe_rng_gaussian]
    · have h1 : ¬ p.sparse < -1 := by omega
      have h0 : (0 : ℤ) ≤ p.sparse := by omega
      simp [GaussianFiller.Fill, Blob.count, Blob.shapeAt, hc, h0, h1, hlen, writeN, hi',
        caffe_rng_gaussian]

/-- A gaussian parameter record with mean 5, std 2, sparsity 1, used by the
C6 witness. -/
def pGaussSparse : FillerParameter := ⟨"gaussian", 0, 0, 1, 5, 2, 1, 1, VarianceNorm.FAN_IN⟩

/-- Witness for C6 at shape (2, 3), sparsity 1, index 0. -/
theorem c6_witness :
    (GaussianFiller.Fill pGaussSparse ⟨[2, 3], zeroQ⟩ zeroQ zeroQ).1.data 0 =
      (if 0 ≤ pGaussSparse.sparse then
        caffe_rng_gaussian pGaussSparse.mean pGaussSparse.std zeroQ 0 *
          ((caffe_rng_bernoulli ((pGaussSparse.sparse : ℚ) /
            (([2, 3].getD 0 0 : ℕ) : ℚ)) zeroQ 0 : ℤ) : ℚ)
      else caffe_rng_gaussian pGaussSparse.mean pGaussSparse.std zeroQ 0) ∧
    (GaussianFiller.Fill pGaussSparse ⟨[2, 3], zeroQ⟩ zeroQ zeroQ).2 =
      (if pGaussSparse.sparse < -1 then some FillError.InvalidSparsity else none) ∧
    (caffe_rng_bernoulli ((pGaussSparse.sparse : ℚ) / (([2, 3].getD 0 0 : ℕ) : ℚ)) zeroQ 0 = 0 ∨
      caffe_rng_bernoulli ((pGaussSparse.sparse : ℚ) /
        (([2, 3].getD 0 0 : ℕ) : ℚ)) zeroQ 0 = 1) :=
  c6_gaussian_sparsity pGaussSparse [2, 3] zeroQ zeroQ zeroQ 0 (by decide) (by decide)

/-- The written prefix of a positive-unitball fill consists of the raw
uniform draws. -/
theorem unitball_drawn_eq (u d : ℕ → ℚ) (cnt i : ℕ) (hi : i < cnt) :
    writeN cnt (caffe_rng_uniform 0 1 u) d i = u i := by
  simp [writeN, caffe_rng_uniform, hi]

/-- A group sum over the written prefix equals the group sum over the raw
draw stream when the group lies inside the written region. -/
theorem unitball_groupSum_eq (u d : ℕ → ℚ) (cnt dim g : ℕ)
    (hg : (g + 1) * dim ≤ cnt) :
    groupSum (writeN cnt (caffe_rng_uniform 0 1 u) d) dim g = groupSum u dim g := by
  unfold groupSum
  apply Finset.sum_congr rfl
  intro j hj
  rw [Finset.mem_range] at hj
  apply unitball_drawn_eq
  calc g * dim + j < g * dim + dim := by omega
    _ = (g + 1) * dim := by ring
    _ ≤ cnt := hg

/-- Pointwise description of a positive-unitball fill: element `i` is the
draw `u i` divided by the sum of the draws of its group `i / dim`. -/
theorem unitball_data_eq
    (p : FillerParameter) (s0 : ℕ) (rest : List ℕ) (d u : ℕ → ℚ) (i : ℕ)
    (hs0 : 0 < s0)
    (hL : 0 < List.foldr (fun a r => a * r) 1 rest)
    (hi : i < s0 * List.foldr (fun a r => a * r) 1 rest) :
    (PositiveUnitballFiller.Fill p ⟨s0 :: rest, d⟩ u).1.data i =
      u i / groupSum u (List.foldr (fun a r => a * r) 1 rest)
        (i / List.foldr (fun a r => a * r) 1 rest) := by
  have hcnt : Blob.count (⟨s0 :: rest, d⟩ : Blob ℚ) =
      s0 * List.foldr (fun a r => a * r) 1 rest := rfl
  have hsh : Blob.shapeAt (⟨s0 :: rest, d⟩ : Blob ℚ) 0 = s0 := rfl
  have hdiv : s0 * List.foldr (fun a r => a * r) 1 rest / s0 =
      List.foldr (fun a r => a * r) 1 rest := Nat.mul_div_cancel_left _ hs0
  have hne : ¬ s0 * List.foldr (fun a r => a * r) 1 rest = 0 := by
    have := Nat.mul_pos hs0 hL
    omega
  have hL0 : ¬ List.foldr (fun a r => a * r) 1 rest = 0 := by omega
  have hgle : (i / List.foldr (fun a r => a * r) 1 rest + 1) *
      List.foldr (fun a r => a * r) 1 rest ≤
      s0 * List.foldr (fun a r => a * r) 1 rest := by
    have hq : i / List.foldr (fun a r => a * r) 1 rest < s0 :=
      (Nat.div_lt_iff_lt_mul hL).mpr hi
    exact Nat.mul_le_mul_right _ hq
  simp only [PositiveUnitballFiller.Fill, Blob.num, hcnt, hsh, hdiv, hne, if_false,
    hL0, if_neg hL0, fst_ite_pair, hi, if_pos hi,
    unitball_drawn_eq u d _ i hi, unitball_groupSum_eq u d _ _ _ hgle, if_true]

/-- A positive-unitball fill succeeds (no error) when sparsity is -1 and the
shape is nondegenerate. -/
theorem unitball_err_eq
    (p : FillerParameter) (s0 : ℕ) (rest : List ℕ) (d u : ℕ → ℚ)
    (hs0 : 0 < s0)
    (hL : 0 < List.foldr (fun a r => a * r) 1 rest)
    (hsp : p.sparse = -1) :
    (PositiveUnitballFiller.Fill p ⟨s0 :: rest, d⟩ u).2 = none := by
  have hdiv : s0 * List.foldr (fun a r => a * r) 1 rest / s0 =
      List.foldr (fun a r => a * r) 1 rest := Nat.mul_div_cancel_left _ hs0
  have hne : ¬ s0 * List.foldr (fun a r => a * r) 1 rest = 0 := by
    have := Nat.mul_pos hs0 hL
    omega
  have hL0 : ¬ List.foldr (fun a r => a * r) 1 rest = 0 := by omega
  have hcnt : Blob.count (⟨s0 :: rest, d⟩ : Blob ℚ) =
      s0 * List.foldr (fun a r => a * r) 1 rest := rfl
  have hsh : Blob.shapeAt (⟨s0 :: rest, d⟩ : Blob ℚ) 0 = s0 := rfl
  simp only [PositiveUnitballFiller.Fill, Blob.num, hcnt, hsh, hdiv, hne, if_false, hL0,
    hsp, if_true]

/-- A group whose drawn values have a positive sum is normalized to sum
exactly to 1. -/
theorem unitball_groupSum_one
    (p : FillerParameter) (s0 : ℕ) (rest : List ℕ) (d u : ℕ → ℚ) (gi : ℕ)
    (hs0 : 0 < s0)
    (hL : 0 < List.foldr (fun a r => a * r) 1 rest)
    (hgi : gi < s0)
    (hpos : 0 < groupSum u (List.foldr (fun a r => a * r) 1 rest) gi) :
    ∑ j ∈ Finset.range (List.foldr (fun a r => a * r) 1 rest),
      (PositiveUnitballFiller.Fill p ⟨s0 :: rest, d⟩ u).1.data
        (gi * List.foldr (fun a r => a * r) 1 rest + j) = 1 := by
  have h1 : ∀ j ∈ Finset.range (List.foldr (fun a r => a * r) 1 rest),
      (PositiveUnitballFiller.Fill p ⟨s0 :: rest, d⟩ u).1.data
          (gi * List.foldr (fun a r => a * r) 1 rest + j) =
        u (gi * List.foldr (fun a r => a * r) 1 rest + j) /
          groupSum u (List.foldr (fun a r => a * r) 1 rest) gi := by
    intro j hj
    rw [Finset.mem_range] at hj
    have hidx : gi * List.foldr (fun a r => a * r) 1 rest + j <
        s0 * List.foldr (fun a r => a * r) 1 rest := by
      calc gi * List.foldr (fun a r => a * r) 1 rest + j
          < gi * List.foldr (fun a r => a * r) 1 rest +
              List.foldr (fun a r => a * r) 1 rest := by omega
        _ = (gi + 1) * List.foldr (fun a r => a * r) 1 rest := by ring
        _ ≤ s0 * List.foldr (fun a r => a * r) 1 rest := Nat.mul_le_mul_right _ hgi
    rw [unitball_data_eq p s0 rest d u _ hs0 hL hidx]
    have hgq : (gi * List.foldr (fun a r => a * r) 1 rest + j) /
        List.foldr (fun a r => a * r) 1 rest = gi := by
      rw [show gi * List.foldr (fun a r => a * r) 1 rest + j =
        List.foldr (fun a r => a * r) 1 rest * gi + j by ring]
      rw [Nat.mul_add_div hL, Nat.div_eq_of_lt hj, add_zero]
    rw [hgq]
  rw [Finset.sum_congr rfl h1, ← Finset.sum_div]
  rw [show ∑ j ∈ Finset.range (List.foldr (fun a r => a * r) 1 rest),
    u (gi * List.foldr (fun a r => a * r) 1 rest + j) =
    groupSum u (List.foldr (fun a r => a * r) 1 rest) gi from rfl]
  exact div_self (ne_of_gt hpos)

/-- Draws lying in the open unit interval — the support of `U(0, 1)`. -/
def positiveDraws (u : ℕ → ℚ) : Prop := ∀ i, 0 < u i ∧ u i < 1

/-- C7: with positive element count, positive group length
`dim = count / shape[0]`, sparsity -1, and draws from `U(0, 1)`, a
positive-unitball fill succeeds, leaves every element in `[0, 1]`, and every
leading-axis group of `dim` consecutive elements sums to exactly 1. -/
theorem c7_positive_unitball
    (p : FillerParameter) (s0 : ℕ) (rest : List ℕ) (d u : ℕ → ℚ) (i gi : ℕ)
    (hsp : p.sparse = -1)
    (hi : i < Blob.count (⟨s0 :: rest, d⟩ : Blob ℚ))
    (hdimpos : 0 < Blob.count (⟨s0 :: rest, d⟩ : Blob ℚ) / s0)
    (hu : positiveDraws u)
    (hgi : gi < s0) :
    (PositiveUnitballFiller.Fill p ⟨s0 :: rest, d⟩ u).2 = none ∧
    (0 ≤ (PositiveUnitballFiller.Fill p ⟨s0 :: rest, d⟩ u).1.data i ∧
      (PositiveUnitballFiller.Fill p ⟨s0 :: rest, d⟩ u).1.data i ≤ 1) ∧
    ∑ j ∈ Finset.range (Blob.count (⟨s0 :: rest, d⟩ : Blob ℚ) / s0),
      (PositiveUnitballFiller.Fill p ⟨s0 :: rest, d⟩ u).1.data
        (gi * (Blob.count (⟨s0 :: rest, d⟩ : Blob ℚ) / s0) + j) = 1 := by
  have hi2 : i < s0 * List.foldr (fun a r => a * r) 1 rest := hi
  have hs0 : 0 < s0 := by
    rcases Nat.eq_zero_or_pos s0 with h | h
    · rw [h, zero_mul] at hi2
      omega
    · exact h
  have hL : 0 < List.foldr (fun a r => a * r) 1 rest := by
    rcases Nat.eq_zero_or_pos (List.foldr (fun a r => a * r) 1 rest) with h | h
    · rw [h, mul_zero] at hi2
      omega
    · exact h
  have hdiv : Blob.count (⟨s0 :: rest, d⟩ : Blob ℚ) / s0 =
      List.foldr (fun a r => a * r) 1 rest := Nat.mul_div_cancel_left _ hs0
  have hSpos : ∀ z : ℕ, 0 < groupSum u (List.foldr (fun a r => a * r) 1 rest) z := by
    intro z
    rw [groupSum]
    exact Finset.sum_pos (fun j _ => (hu _).1) (Finset.nonempty_range_iff.mpr (by omega))
  refine ⟨unitball_err_eq p s0 rest d u hs0 hL hsp, ⟨?_, ?_⟩, ?_⟩
  · rw [unitball_data_eq p s0 rest d u i hs0 hL hi2]
    exact div_nonneg (hu i).1.le (hSpos _).le
  · rw [unitball_data_eq p s0 rest d u i hs0 hL hi2]
    rw [div_le_one (hSpos _)]
    have hieq : i / List.foldr (fun a r => a * r) 1 rest *
        List.foldr (fun a r => a * r) 1 rest +
        i % List.foldr (fun a r => a * r) 1 rest = i := by
      rw [mul_comm]
      exact Nat.div_add_mod i _
    calc u i = u (i / List.foldr (fun a r => a * r) 1 rest *
          List.foldr (fun a r => a * r) 1 rest +
          i % List.foldr (fun a r => a * r) 1 rest) := by rw [hieq]
      _ ≤ groupSum u (List.foldr (fun a r => a * r) 1 rest)
          (i / List.foldr (fun a r => a * r) 1 rest) := by
        rw [groupSum]
        exact Finset.single_le_sum (f := fun j => u (i / List.foldr (fun a r => a * r) 1 rest *
            List.foldr (fun a r => a * r) 1 rest + j))
          (fun j _ => (hu _).1.le)
          (Finset.mem_range.mpr (Nat.mod_lt _ hL))
  · rw [hdiv]
    exact unitball_groupSum_one p s0 rest d u gi hs0 hL hgi (hSpos gi)

/-- Draws lying in the generator's range `[0, 1)` — 0 is a possible draw. -/
def unitRangeDraws (u : ℕ → ℚ) : Prop := ∀ i, 0 ≤ u i ∧ u i < 1

/-- An original buffer content distinct from the drawn values. -/
def dOrig : ℕ → ℚ := fun _ => 37

/-- C10: the normalization of a leading-axis group divides by the group's
drawn sum with no zero check: whenever that sum is strictly positive the
division is well-defined and the group sums to 1 after the fill, but the
constantly-zero stream lies entirely in the generator's range `[0, 1)` and
produces a group whose divisor is exactly 0, so the division by zero is
reachable. -/
theorem c10_unitball_division_safety
    (p : FillerParameter) (s0 : ℕ) (rest : List ℕ) (d u : ℕ → ℚ) (gi : ℕ)
    (hsp : p.sparse = -1)
    (hc : 0 < Blob.count (⟨s0 :: rest, d⟩ : Blob ℚ))
    (hgi : gi < s0)
    (hpos : 0 < groupSum (writeN (Blob.count (⟨s0 :: rest, d⟩ : Blob ℚ))
        (caffe_rng_uniform 0 1 u) d)
        (Blob.count (⟨s0 :: rest, d⟩ : Blob ℚ) / s0) gi) :
    ∑ j ∈ Finset.range (Blob.count (⟨s0 :: rest, d⟩ : Blob ℚ) / s0),
      (PositiveUnitballFiller.Fill p ⟨s0 :: rest, d⟩ u).1.data
        (gi * (Blob.count (⟨s0 :: rest, d⟩ : Blob ℚ) / s0) + j) = 1 ∧
    unitRangeDraws zeroQ ∧
    groupSum (writeN (Blob.count (⟨[1, 1], dOrig⟩ : Blob ℚ))
        (caffe_rng_uniform 0 1 zeroQ) dOrig)
      (Blob.count (⟨[1, 1], dOrig⟩ : Blob ℚ) / 1) 0 = 0 := by
  have hc2 : 0 < s0 * List.foldr (fun a r => a * r) 1 rest := hc
  have hs0 : 0 < s0 := by
    rcases Nat.eq_zero_or_pos s0 with h | h
    · rw [h, zero_mul] at hc2
      omega
    · exact h
  have hL : 0 < List.foldr (fun a r => a * r) 1 rest := by
    rcases Nat.eq_zero_or_pos (List.foldr (fun a r => a * r) 1 rest) with h | h
    · rw [h, mul_zero] at hc2
      omega
    · exact h
  have hdiv : Blob.count (⟨s0 :: rest, d⟩ : Blob ℚ) / s0 =
      List.foldr (fun a r => a * r) 1 rest := Nat.mul_div_cancel_left _ hs0
  refine ⟨?_, ?_, ?_⟩
  · rw [hdiv]
    apply unitball_groupSum_one p s0 rest d u gi hs0 hL hgi
    rw [hdiv] at hpos
    rw [← unitball_groupSum_eq u d (Blob.count (⟨s0 :: rest, d⟩ : Blob ℚ)) _ gi ?hg]
    · exact hpos
    case hg =>
      have : (gi + 1) * List.foldr (fun a r => a * r) 1 rest ≤
          s0 * List.foldr (fun a r => a * r) 1 rest := Nat.mul_le_mul_right _ hgi
      exact this
  · intro k
    constructor
    · norm_num [zeroQ]
    · norm_num [zeroQ]
  · simp [groupSum, writeN, caffe_rng_uniform, zeroQ, Blob.count]

/-- A positive_unitball parameter record (sparsity -1). -/
def pUnitball : FillerParameter :=
  ⟨"positive_unitball", 0, 0, 1, 0, 1, 1, -1, VarianceNorm.FAN_IN⟩

/-- The constantly one-half stream, a valid `U(0, 1)` draw sequence. -/
def halfQ : ℕ → ℚ := fun _ => 1/2

/-- Witness for C7 on a (2, 2) buffer with all draws 1/2. -/
theorem c7_witness :
    (PositiveUnitballFiller.Fill pUnitball ⟨2 :: [2], dOrig⟩ halfQ).2 = none ∧
    (0 ≤ (PositiveUnitballFiller.Fill pUnitball ⟨2 :: [2], dOrig⟩ halfQ).1.data 3 ∧
      (PositiveUnitballFiller.Fill pUnitball ⟨2 :: [2], dOrig⟩ halfQ).1.data 3 ≤ 1) ∧
    ∑ j ∈ Finset.range (Blob.count (⟨2 :: [2], dOrig⟩ : Blob ℚ) / 2),
      (PositiveUnitballFiller.Fill pUnitball ⟨2 :: [2], dOrig⟩ halfQ).1.data
        (1 * (Blob.count (⟨2 :: [2], dOrig⟩ : Blob ℚ) / 2) + j) = 1 :=
  c7_positive_unitball pUnitball 2 [2] dOrig halfQ 3 1 (by decide) (by decide) (by decide)
    (fun _ => ⟨by norm_num [halfQ], by norm_num [halfQ]⟩) (by decide)

/-- Witness for C10 on a (2, 2) buffer: group 0 with positive drawn sum
normalizes to 1, while the zero stream exhibits the zero divisor. -/
theorem c10_witness :
    ∑ j ∈ Finset.range (Blob.count (⟨2 :: [2], dOrig⟩ : Blob ℚ) / 2),
      (PositiveUnitballFiller.Fill pUnitball ⟨2 :: [2], dOrig⟩ halfQ).1.data
        (0 * (Blob.count (⟨2 :: [2], dOrig⟩ : Blob ℚ) / 2) + j) = 1 ∧
    unitRangeDraws zeroQ ∧
    groupSum (writeN (Blob.count (⟨[1, 1], dOrig⟩ : Blob ℚ))
        (caffe_rng_uniform 0 1 zeroQ) dOrig)
      (Blob.count (⟨[1, 1], dOrig⟩ : Blob ℚ) / 1) 0 = 0 :=
  c10_unitball_division_safety pUnitball 2 [2] dOrig halfQ 0 (by decide) (by decide)
    (by decide)
    (by norm_num [groupSum, writeN, caffe_rng_uniform, halfQ, Blob.count,
      Finset.sum_range_succ])

/-- C5: bilinear fill requires exactly 4 axes (square trailing extents) or
exactly 5 axes (cubic trailing extents), failing with `UnsupportedRank` for
any other axis count; on success each element is the product over the
spatial coordinates, decoded row-major from the trailing axes, of
`1 - |coord/f - c|` with `f = ceil(extent/2)` and `c = (2f-1-f mod 2)/(2f)`;
the output is deterministic — it does not depend on the prior buffer
contents. -/
theorem c5_bilinear_formula
    (p : FillerParameter) (shapeBad : List ℕ) (n ch S i j : ℕ) (d d2 : ℕ → ℚ)
    (hb4 : ¬ shapeBad.length = 4) (hb5 : ¬ shapeBad.length = 5)
    (hsp : p.sparse = -1)
    (hi : i < Blob.count (⟨[n, ch, S, S], d⟩ : Blob ℚ))
    (hj : j < Blob.count (⟨[n, ch, S, S, S], d⟩ : Blob ℚ)) :
    BilinearFiller.Fill p ⟨shapeBad, d⟩ = (⟨shapeBad, d⟩, some FillError.UnsupportedRank) ∧
    (BilinearFiller.Fill p ⟨[n, ch, S, S], d⟩).2 = none ∧
    (BilinearFiller.Fill p ⟨[n, ch, S, S], d⟩).1.data i =
      bilinearFactor ((S + 1) / 2) (i % S) * bilinearFactor ((S + 1) / 2) (i / S % S) ∧
    (BilinearFiller.Fill p ⟨[n, ch, S, S, S], d⟩).2 = none ∧
    (BilinearFiller.Fill p ⟨[n, ch, S, S, S], d⟩).1.data j =
      bilinearFactor ((S + 1) / 2) (j % S) * bilinearFactor ((S + 1) / 2) (j / S % S) *
      bilinearFactor ((S + 1) / 2) (j / (S * S) % S) ∧
    (BilinearFiller.Fill p ⟨[n, ch, S, S], d⟩).1.data i =
      (BilinearFiller.Fill p ⟨[n, ch, S, S], d2⟩).1.data i := by
  have hi' : i < n * (ch * (S * (S * 1))) := hi
  have hj' : j < n * (ch * (S * (S * (S * 1)))) := hj
  have hi2 : i < n * (ch * (S * S)) := by simpa using hi'
  have hj2 : j < n * (ch * (S * (S * S))) := by simpa using hj'
  refine ⟨?_, ?_, ?_, ?_, ?_, ?_⟩
  · simp [BilinearFiller.Fill, hb4, hb5]
  · simp [BilinearFiller.Fill, Blob.width, Blob.height, Blob.shapeAt, hsp]
  · simp [BilinearFiller.Fill, Blob.width, Blob.height, Blob.shapeAt, Blob.count, writeN,
      hsp, hi2]
  · simp [BilinearFiller.Fill, Blob.shapeAt, hsp]
  · simp [BilinearFiller.Fill, Blob.shapeAt, Blob.count, writeN, hsp, hj2]
  · simp [BilinearFiller.Fill, Blob.width, Blob.height, Blob.shapeAt, Blob.count, writeN,
      hsp, hi2]

/-- The bilinear constant `c` is nonnegative for `f ≥ 1`. -/
theorem bilinearC_nonneg (f : ℕ) (hf : 0 < f) : 0 ≤ bilinearC f := by
  rw [bilinearC]
  apply div_nonneg
  · have hfq : (1:ℚ) ≤ (f:ℚ) := by exact_mod_cast hf
    have hr : ((f % 2 : ℕ) : ℚ) ≤ 1 := by
      have : f % 2 ≤ 1 := by omega
      exact_mod_cast this
    linarith
  · positivity

/-- The bilinear constant `c` is at most 1. -/
theorem bilinearC_le_one (f : ℕ) (hf : 0 < f) : bilinearC f ≤ 1 := by
  have hfq : (0:ℚ) < (f:ℚ) := by exact_mod_cast hf
  rw [bilinearC, div_le_one (by linarith)]
  have hr : (0:ℚ) ≤ ((f % 2 : ℕ) : ℚ) := by positivity
  linarith

/-- Each bilinear factor is at most 1. -/
theorem bilinearFactor_le_one (f t : ℕ) : bilinearFactor f t ≤ 1 := by
  rw [bilinearFactor]
  have := abs_nonneg ((t:ℚ) / (f:ℚ) - bilinearC f)
  linarith

/-- Each bilinear factor is nonnegative for a coordinate inside the spatial
extent, with `f = ceil(S/2)`. -/
theorem bilinearFactor_nonneg (S f t : ℕ) (hf : f = (S + 1) / 2) (hS : 0 < S)
    (ht : t < S) : 0 ≤ bilinearFactor f t := by
  have hf1 : 1 ≤ f := by omega
  have hS2f : S ≤ 2 * f := by omega
  have hfq : (0:ℚ) < (f:ℚ) := by exact_mod_cast hf1
  have htq : (t:ℚ) + 1 ≤ (S:ℚ) := by exact_mod_cast ht
  have hSq : (S:ℚ) ≤ 2 * (f:ℚ) := by exact_mod_cast hS2f
  have hrq1 : ((f % 2 : ℕ) : ℚ) ≤ 1 := by
    have : f % 2 ≤ 1 := by omega
    exact_mod_cast this
  have hc0 : 0 ≤ bilinearC f := bilinearC_nonneg f (by omega)
  have hc1 : bilinearC f ≤ 1 := bilinearC_le_one f (by omega)
  have key : (t:ℚ) / (f:ℚ) ≤ 1 + bilinearC f := by
    rw [div_le_iff₀ hfq, bilinearC]
    have expand : (1 + (2 * (f:ℚ) - 1 - ((f % 2 : ℕ) : ℚ)) / (2 * (f:ℚ))) * (f:ℚ) =
        (4 * (f:ℚ) - 1 - ((f % 2 : ℕ) : ℚ)) / 2 := by
      field_simp
      ring
    rw [expand, le_div_iff₀ (by norm_num : (0:ℚ) < 2)]
    linarith
  have ht0 : (0:ℚ) ≤ (t:ℚ) / (f:ℚ) := by positivity
  rw [bilinearFactor, sub_nonneg, abs_le]
  constructor
  · linarith
  · linarith

/-- For odd `f` the factor at coordinate `f - 1` is exactly 1. -/
theorem bilinearFactor_center (f : ℕ) (hodd : f % 2 = 1) :
    bilinearFactor f (f - 1) = 1 := by
  have hf1 : 1 ≤ f := by omega
  have hfq : (0:ℚ) < (f:ℚ) := by exact_mod_cast hf1
  rw [bilinearFactor, bilinearC, hodd]
  have hcast : ((f - 1 : ℕ) : ℚ) = (f:ℚ) - 1 := by
    push_cast [hf1]
    ring
  rw [hcast]
  have hzero : ((f:ℚ) - 1) / (f:ℚ) - (2 * (f:ℚ) - 1 - ((1 : ℕ) : ℚ)) / (2 * (f:ℚ)) = 0 := by
    field_simp
    ring
  rw [hzero, abs_zero, sub_zero]

/-- For odd `f` the coordinate `f - 1` satisfies `coord / f = c`. -/
theorem bilinearC_center_coord (f : ℕ) (hodd : f % 2 = 1) :
    ((f - 1 : ℕ) : ℚ) / (f : ℚ) = bilinearC f := by
  have hf1 : 1 ≤ f := by omega
  have hfq : (0:ℚ) < (f:ℚ) := by exact_mod_cast hf1
  rw [bilinearC, hodd]
  have hcast : ((f - 1 : ℕ) : ℚ) = (f:ℚ) - 1 := by
    push_cast [hf1]
    ring
  rw [hcast]
  field_simp
  ring

/-- Pointwise description of a 4-axis square bilinear fill, independent of
the final sparsity check's branch. -/
theorem bilinear4_data_eq (p : FillerParameter) (n ch S i : ℕ) (d : ℕ → ℚ)
    (hi : i < n * (ch * (S * S))) :
    (BilinearFiller.Fill p ⟨[n, ch, S, S], d⟩).1.data i =
      bilinearFactor ((S + 1) / 2) (i % S) * bilinearFactor ((S + 1) / 2) (i / S % S) := by
  simp [BilinearFiller.Fill, Blob.width, Blob.height, Blob.shapeAt, Blob.count, writeN,
    hi, fst_ite_pair]

/-- A bilinear parameter record (sparsity -1). -/
def pBilinear : FillerParameter := ⟨"bilinear", 0, 0, 1, 0, 1, 1, -1, VarianceNorm.FAN_IN⟩

/-- Witness for C5 at shapes (1, 1, 2, 2), (1, 1, 2, 2, 2), and the
rank-1 shape [3]. -/
theorem c5_witness :
    BilinearFiller.Fill pBilinear ⟨[3], dOrig⟩ =
      (⟨[3], dOrig⟩, some FillError.UnsupportedRank) ∧
    (BilinearFiller.Fill pBilinear ⟨[1, 1, 2, 2], dOrig⟩).2 = none ∧
    (BilinearFiller.Fill pBilinear ⟨[1, 1, 2, 2], dOrig⟩).1.data 3 =
      bilinearFactor ((2 + 1) / 2) (3 % 2) * bilinearFactor ((2 + 1) / 2) (3 / 2 % 2) ∧
    (BilinearFiller.Fill pBilinear ⟨[1, 1, 2, 2, 2], dOrig⟩).2 = none ∧
    (BilinearFiller.Fill pBilinear ⟨[1, 1, 2, 2, 2], dOrig⟩).1.data 7 =
      bilinearFactor ((2 + 1) / 2) (7 % 2) * bilinearFactor ((2 + 1) / 2) (7 / 2 % 2) *
      bilinearFactor ((2 + 1) / 2) (7 / (2 * 2) % 2) ∧
    (BilinearFiller.Fill pBilinear ⟨[1, 1, 2, 2], dOrig⟩).1.data 3 =
      (BilinearFiller.Fill pBilinear ⟨[1, 1, 2, 2], zeroQ⟩).1.data 3 :=
  c5_bilinear_formula pBilinear [3] 1 1 2 3 7 dOrig zeroQ (by decide) (by decide)
    (by decide) (by decide) (by decide)

/-- C8: the claim is false as stated: on the (1, 1, 3, 3) buffer
(`f = ceil(3/2) = 2` is even) every element of the bilinear fill is at most
9/16 < 1, so the maximum element is not 1 and no coordinate attains
`coord/f = c`. -/
theorem c8_counterexample :
    (BilinearFiller.Fill pBilinear ⟨[1, 1, 3, 3], dOrig⟩).1.data 0 ≤ 9/16 ∧
    (BilinearFiller.Fill pBilinear ⟨[1, 1, 3, 3], dOrig⟩).1.data 1 ≤ 9/16 ∧
    (BilinearFiller.Fill pBilinear ⟨[1, 1, 3, 3], dOrig⟩).1.data 2 ≤ 9/16 ∧
    (BilinearFiller.Fill pBilinear ⟨[1, 1, 3, 3], dOrig⟩).1.data 3 ≤ 9/16 ∧
    (BilinearFiller.Fill pBilinear ⟨[1, 1, 3, 3], dOrig⟩).1.data 4 ≤ 9/16 ∧
    (BilinearFiller.Fill pBilinear ⟨[1, 1, 3, 3], dOrig⟩).1.data 5 ≤ 9/16 ∧
    (BilinearFiller.Fill pBilinear ⟨[1, 1, 3, 3], dOrig⟩).1.data 6 ≤ 9/16 ∧
    (BilinearFiller.Fill pBilinear ⟨[1, 1, 3, 3], dOrig⟩).1.data 7 ≤ 9/16 ∧
    (BilinearFiller.Fill pBilinear ⟨[1, 1, 3, 3], dOrig⟩).1.data 8 ≤ 9/16 ∧
    (9/16 : ℚ) < 1 := by
  refine ⟨?_, ?_, ?_, ?_, ?_, ?_, ?_, ?_, ?_, by norm_num⟩ <;>
  · rw [bilinear4_data_eq pBilinear 1 1 3 _ dOrig (by norm_num)]
    simp only [bilinearFactor, bilinearC]
    norm_num [abs_of_nonneg]

/-- C8 (amended): on a (K, 1, S, S) buffer all bilinear-fill elements lie in
`[0, 1]` and the output is deterministic; when `f = ceil(S/2)` is odd the
maximum 1 is attained exactly at the center coordinate `x = y = f - 1`,
which satisfies `coord/f = c`.  (For even `f` no integer coordinate attains
`c`, and the maximum falls short of 1 — see the counterexample.) -/
theorem c8_amended_bilinear_pyramid
    (p : FillerParameter) (K S : ℕ) (d d2 : ℕ → ℚ) (i : ℕ)
    (hK : 0 < K)
    (hi : i < Blob.count (⟨[K, 1, S, S], d⟩ : Blob ℚ)) :
    (0 ≤ (BilinearFiller.Fill p ⟨[K, 1, S, S], d⟩).1.data i ∧
      (BilinearFiller.Fill p ⟨[K, 1, S, S], d⟩).1.data i ≤ 1) ∧
    ((S + 1) / 2 % 2 = 1 →
      (((S + 1) / 2 - 1 : ℕ) : ℚ) / (((S + 1) / 2 : ℕ) : ℚ) = bilinearC ((S + 1) / 2) ∧
      (BilinearFiller.Fill p ⟨[K, 1, S, S], d⟩).1.data
        (((S + 1) / 2 - 1) * S + ((S + 1) / 2 - 1)) = 1) ∧
    (BilinearFiller.Fill p ⟨[K, 1, S, S], d⟩).1.data i =
      (BilinearFiller.Fill p ⟨[K, 1, S, S], d2⟩).1.data i := by
  have hi' : i < K * (1 * (S * (S * 1))) := hi
  have hi2 : i < K * (1 * (S * S)) := by simpa using hi'
  have hS : 0 < S := by
    rcases Nat.eq_zero_or_pos S with h | h
    · subst h
      simp at hi2
    · exact h
  have hxS : i % S < S := Nat.mod_lt _ hS
  have hyS : i / S % S < S := Nat.mod_lt _ hS
  refine ⟨?_, ?_, ?_⟩
  · rw [bilinear4_data_eq p K 1 S i d hi2]
    constructor
    · exact mul_nonneg (bilinearFactor_nonneg S _ _ rfl hS hxS)
        (bilinearFactor_nonneg S _ _ rfl hS hyS)
    · have h1 := bilinearFactor_le_one ((S + 1) / 2) (i % S)
      have h2 := bilinearFactor_le_one ((S + 1) / 2) (i / S % S)
      have h3 := bilinearFactor_nonneg S ((S + 1) / 2) (i / S % S) rfl hS hyS
      nlinarith
  · intro hodd
    refine ⟨bilinearC_center_coord _ hodd, ?_⟩
    have hfS : (S + 1) / 2 ≤ S := by omega
    have ha : (S + 1) / 2 - 1 < S := by omega
    have hcen : ((S + 1) / 2 - 1) * S + ((S + 1) / 2 - 1) < K * (1 * (S * S)) := by
      have h1 : ((S + 1) / 2 - 1) * S + ((S + 1) / 2 - 1) < (((S + 1) / 2 - 1) + 1) * S := by
        have : (((S + 1) / 2 - 1) + 1) * S = ((S + 1) / 2 - 1) * S + S := by ring
        omega
      have h2 : (((S + 1) / 2 - 1) + 1) * S ≤ S * S := Nat.mul_le_mul_right _ (by omega)
      have h3 : S * S ≤ K * (S * S) := Nat.le_mul_of_pos_left _ hK
      have h4 : K * (1 * (S * S)) = K * (S * S) := by ring
      omega
    rw [bilinear4_data_eq p K 1 S _ d hcen]
    have hx : (((S + 1) / 2 - 1) * S + ((S + 1) / 2 - 1)) % S = (S + 1) / 2 - 1 := by
      rw [show ((S + 1) / 2 - 1) * S + ((S + 1) / 2 - 1) =
        S * ((S + 1) / 2 - 1) + ((S + 1) / 2 - 1) by ring]
      rw [Nat.mul_add_mod, Nat.mod_eq_of_lt ha]
    have hy : (((S + 1) / 2 - 1) * S + ((S + 1) / 2 - 1)) / S % S = (S + 1) / 2 - 1 := by
      rw [show ((S + 1) / 2 - 1) * S + ((S + 1) / 2 - 1) =
        S * ((S + 1) / 2 - 1) + ((S + 1) / 2 - 1) by ring]
      rw [Nat.mul_add_div hS, Nat.div_eq_of_lt ha, add_zero, Nat.mod_eq_of_lt ha]
    rw [hx, hy, bilinearFactor_center _ hodd, mul_one]
  · rw [bilinear4_data_eq p K 1 S i d hi2, bilinear4_data_eq p K 1 S i d2 hi2]

/-- Witness for the amended C8 at shape (1, 1, 5, 5), where
`f = ceil(5/2) = 3` is odd and the center (2, 2) (index 12) holds exactly 1. -/
theorem c8_amended_witness :
    (0 ≤ (BilinearFiller.Fill pBilinear ⟨[1, 1, 5, 5], dOrig⟩).1.data 0 ∧
      (BilinearFiller.Fill pBilinear ⟨[1, 1, 5, 5], dOrig⟩).1.data 0 ≤ 1) ∧
    ((((5 + 1) / 2 - 1 : ℕ) : ℚ) / (((5 + 1) / 2 : ℕ) : ℚ) = bilinearC ((5 + 1) / 2) ∧
      (BilinearFiller.Fill pBilinear ⟨[1, 1, 5, 5], dOrig⟩).1.data
        (((5 + 1) / 2 - 1) * 5 + ((5 + 1) / 2 - 1)) = 1) ∧
    (BilinearFiller.Fill pBilinear ⟨[1, 1, 5, 5], dOrig⟩).1.data 0 =
      (BilinearFiller.Fill pBilinear ⟨[1, 1, 5, 5], zeroQ⟩).1.data 0 := by
  have h := c8_amended_bilinear_pyramid pBilinear 1 5 dOrig zeroQ 0 (by decide) (by decide)
  exact ⟨h.1, h.2.1 (by decide), h.2.2⟩

/-- C9: on a 4-axis buffer with equal height and width, the bilinear-fill
value at linear index `i` depends only on `i mod (height · width)`: every
leading-axis channel receives the identical interpolation kernel. -/
theorem c9_bilinear_channel_replication
    (p : FillerParameter) (N C H W i : ℕ) (d : ℕ → ℚ)
    (hsq : H = W)
    (hi : i < Blob.count (⟨[N, C, H, W], d⟩ : Blob ℚ)) :
    (BilinearFiller.Fill p ⟨[N, C, H, W], d⟩).1.data i =
      (BilinearFiller.Fill p ⟨[N, C, H, W], d⟩).1.data (i % (H * W)) := by
  subst hsq
  have hi' : i < N * (C * (H * (H * 1))) := hi
  have hi2 : i < N * (C * (H * H)) := by simpa using hi'
  have hH : 0 < H := by
    rcases Nat.eq_zero_or_pos H with h | h
    · subst h
      simp at hi2
    · exact h
  have hN : 0 < N := by
    rcases Nat.eq_zero_or_pos N with h | h
    · subst h
      simp at hi2
    · exact h
  have hC : 0 < C := by
    rcases Nat.eq_zero_or_pos C with h | h
    · subst h
      simp at hi2
    · exact h
  have hHH : 0 < H * H := Nat.mul_pos hH hH
  have hr : i % (H * H) < H * H := Nat.mod_lt _ hHH
  have hrc : i % (H * H) < N * (C * (H * H)) := by
    have h1 : H * H ≤ C * (H * H) := Nat.le_mul_of_pos_left _ hC
    have h2 : C * (H * H) ≤ N * (C * (H * H)) := Nat.le_mul_of_pos_left _ hN
    omega
  rw [bilinear4_data_eq p N C H i d hi2, bilinear4_data_eq p N C H _ d hrc]
  have key : i / H % H = i % (H * H) / H % H := by
    conv_lhs => rw [← Nat.div_add_mod i (H * H)]
    rw [show H * H * (i / (H * H)) + i % (H * H) =
      H * (H * (i / (H * H))) + i % (H * H) by ring]
    rw [Nat.mul_add_div hH]
    rw [Nat.mul_add_mod]
  rw [Nat.mod_mod_of_dvd i ⟨H, rfl⟩, ← key]

/-- Witness for C9 at shape (2, 3, 4, 4), index 37: the value equals that at
index 37 mod 16 = 5. -/
theorem c9_witness :
    (BilinearFiller.Fill pBilinear ⟨[2, 3, 4, 4], dOrig⟩).1.data 37 =
      (BilinearFiller.Fill pBilinear ⟨[2, 3, 4, 4], dOrig⟩).1.data (37 % (4 * 4)) :=
  c9_bilinear_channel_replication pBilinear 2 3 4 4 37 dOrig rfl (by decide)

end CaffeFiller

namespace HDF5Reader

/-- A concrete row-content table for the witness: row `r` of column `col` of
file `f` holds the value `2400 · f + r` (the offset scheme of the test's
sample data). -/
def sampleTbl : ℕ → ℕ → ℕ → ℚ := fun f _ r => 2400 * f + r

/-- Witness for the amended C3 theorem: with B = 5 (files of 10 rows, the
test's configuration), batch number 6 is served from file 1 at offset 0. -/
theorem c3_amended_witness :
    batchAt [2 * 5, 2 * 5] 5 6 = (if 6 % 4 < 2 then 0 else 1, 6 % 2 * 5) ∧
    batchColumn sampleTbl (batchAt [2 * 5, 2 * 5] 5 6) 0 3 =
      sampleTbl (if 6 % 4 < 2 then 0 else 1) 0 (6 % 2 * 5 + 3) :=
  c3_amended_reader_cycle 5 6 0 3 sampleTbl (by decide)

end HDF5Reader
